import Mathlib

/-
Verification of the ph-news-trend ingestion pipeline.

This file gives a shallow embedding of the parts of the repository that the
checked properties are about:

* the content normalizer `html_to_markdown` in `src/util/tools.py`
  (DOM pruning of unwanted ids/classes/tags, the whitespace cleanup regexes,
  and the final strip);
* the ABS-CBN adapter's pagination/date-boundary loop in `src/news/apis.py`
  (`abscbn_articles`);
* the three storage backends of `src/util/storage_backend.py`
  (`SQLiteBackend`, `DuckDBBackend`, `BigQueryBackend`) and the module-level
  `SQLiteConnection` of `src/util/sqlite.py`;
* the orchestrator's signal handling in `src/main.py`, and the write
  destinations of the API adapters for `get_all_articles`.

Machine integers do not occur on the verified paths; timestamps are embedded
as integers ordered like the parsed datetimes.  Fallible Python code is
embedded with `Except`: a function that can raise to its caller returns
`Except PyErr _` (or `Except String _`), and a `try/except` block is embedded
by matching on the inner result.
-/

namespace PhNews

/-! ## Content normalizer: whitespace cleanup (src/util/tools.py lines 95-99)

The source runs two regex substitutions and a strip on the markdown text:

  markdown_content = re.sub(r'\n{3,}', '\n\n', markdown_content)
  markdown_content = re.sub(r' +', ' ', markdown_content)
  return markdown_content.strip()

Replacing every maximal run of three or more newlines by exactly two is the
same as capping every maximal newline run at two, and replacing every run of
spaces by one space is capping every maximal space run at one; `capNL` and
`capSP` embed the two substitutions in that form, and `stripEnds` embeds
Python `str.strip()` (both-ends removal of ASCII whitespace). -/

/-- First cleanup regex of `html_to_markdown`: cap each maximal run of
newline characters at two, which is exactly what replacing every run of
three or more newlines with two newlines does.  The counter `k` is the
number of newlines already kept from the current run. -/
def capNL : Nat → List Char → List Char
  | _, [] => []
  | k, c :: rest =>
    if c = '\n' then
      if 2 ≤ k then capNL k rest
      else '\n' :: capNL (k + 1) rest
    else c :: capNL 0 rest

/-- Second cleanup regex of `html_to_markdown`: collapse each run of space
characters to a single space.  The flag records whether the previous
character kept was a space. -/
def capSP : Bool → List Char → List Char
  | _, [] => []
  | b, c :: rest =>
    if c = ' ' then
      if b then capSP true rest
      else ' ' :: capSP true rest
    else c :: capSP false rest

/-- The whitespace characters removed by Python `str.strip()`. -/
def isPyWS (c : Char) : Bool :=
  (c = ' ') || (c = '\t') || (c = '\n') || (c = '\r') ||
    (c = Char.ofNat 11) || (c = Char.ofNat 12)

/-- Python `str.strip()`: drop leading and trailing whitespace. -/
def stripEnds (l : List Char) : List Char :=
  (((l.dropWhile isPyWS).reverse.dropWhile isPyWS)).reverse

/-- The full cleanup applied to the html2text output in `html_to_markdown`,
in source order: newline collapse, space collapse, strip. -/
def cleanupChars (l : List Char) : List Char :=
  stripEnds (capSP false (capNL 0 l))

/-- String-level cleanup, the tail of `html_to_markdown`. -/
def cleanup (s : String) : String :=
  String.mk (cleanupChars s.data)

/-! ## Content normalizer: DOM pruning (src/util/tools.py lines 70-93)

The DOM produced by BeautifulSoup is embedded as a tree of text nodes and
elements carrying a tag name, an optional id attribute and a class list.
`tag.decompose()` removes the tag and its whole subtree. -/

/-- A parsed HTML node: a text node, or an element with tag name, optional
id attribute, class list, and children. -/
inductive Html where
  | text : String → Html
  | elem : String → Option String → List String → List Html → Html

/-- CSS selector `#i` as used by `soup.select` in the id-removal loop:
matches an element whose id attribute equals `i`; text nodes never match. -/
def idMatches (i : String) : Html → Bool
  | .text _ => false
  | .elem _ idAttr _ _ => idAttr == some i

/-- CSS selector `.c` as used by `soup.select` in the class-removal loop:
matches an element whose class list contains `c`. -/
def classMatches (c : String) : Html → Bool
  | .text _ => false
  | .elem _ _ classes _ => classes.contains c

/-- Selector `soup.find_all(t)` in the tag-removal loop: matches an element whose
tag name is `t`. -/
def tagMatches (t : String) : Html → Bool
  | .text _ => false
  | .elem tag _ _ _ => tag == t

/-- One decompose pass over a node list: every node matching `p` is removed
together with its entire subtree (that is what `tag.decompose()` does);
other elements keep their attributes and have their children pruned. -/
def pruneL (p : Html → Bool) : List Html → List Html
  | [] => []
  | .text s :: rest => .text s :: pruneL p rest
  | .elem t i c ch :: rest =>
    if p (.elem t i c ch) then pruneL p rest
    else .elem t i c (pruneL p ch) :: pruneL p rest

/-- The id-removal loop: `for id in unwanted_ids: for tag in
soup.select(f'#\x7bid\x7d'): tag.decompose()`. -/
def pruneIds (ids : List String) (ns : List Html) : List Html :=
  ids.foldl (fun acc i => pruneL (idMatches i) acc) ns

/-- The class-removal loop of `html_to_markdown`. -/
def pruneClasses (classes : List String) (ns : List Html) : List Html :=
  classes.foldl (fun acc c => pruneL (classMatches c) acc) ns

/-- The tag-removal loop of `html_to_markdown`. -/
def pruneTags (tags : List String) (ns : List Html) : List Html :=
  tags.foldl (fun acc t => pruneL (tagMatches t) acc) ns

/-- The three unwanted-node arguments of `html_to_markdown`. -/
structure UnwantedCfg where
  ids : List String
  classes : List String
  tags : List String
deriving DecidableEq

/-- The three removal loops of `html_to_markdown`, in source order:
ids, then classes, then tag names. -/
def decomposeAll (cfg : UnwantedCfg) (ns : List Html) : List Html :=
  pruneTags cfg.tags (pruneClasses cfg.classes (pruneIds cfg.ids ns))

/-- A node matches the unwanted configuration if its id, one of its classes,
or its tag name is listed. -/
def matchesAny (cfg : UnwantedCfg) (h : Html) : Bool :=
  cfg.ids.any (fun i => idMatches i h) ||
    cfg.classes.any (fun c => classMatches c h) ||
    cfg.tags.any (fun t => tagMatches t h)

/-- The text pieces of a node list in document order (the text content that
the html2text conversion can emit). -/
def texts : List Html → List String
  | [] => []
  | .text s :: rest => s :: texts rest
  | .elem _ _ _ ch :: rest => texts ch ++ texts rest

/-- Modelled from the spec's words, for comparison with the source-side
pruning: collect text while skipping, subtree-wide, every node whose root
matches — "Removes every subtree whose root matches an id in unwanted_ids,
a class in unwanted_classes, or a tag name in unwanted_tags (deletion is
subtree-wide, not just the matched node)". -/
def specCollect (p : Html → Bool) : List Html → List String
  | [] => []
  | .text s :: rest => s :: specCollect p rest
  | .elem t i c ch :: rest =>
    if p (.elem t i c ch) then specCollect p rest
    else specCollect p ch ++ specCollect p rest

/-- Model of the html2text conversion (external collaborator, configured
with links, images and emphasis suppressed): text nodes contribute their
text, an element contributes its children's text followed by a blank-line
block separator. -/
def renderList : List Html → String
  | [] => ""
  | .text s :: rest => s ++ renderList rest
  | .elem _ _ _ ch :: rest => renderList ch ++ "\n\n" ++ renderList rest

/-- Model of `html2md.handle`, which terminates its output with a blank
line. -/
def h2tHandle (ns : List Html) : String :=
  renderList ns ++ "\n\n"

/-- The content normalizer on a parsed tree: prune unwanted nodes, convert
to markdown text, run the whitespace cleanup (src/util/tools.py lines
54-99). -/
def html_to_markdown (cfg : UnwantedCfg) (ns : List Html) : String :=
  cleanup (h2tHandle (decomposeAll cfg ns))

/-- Python exceptions relevant to the normalizer's entry. -/
inductive PyErr where
  | typeError
deriving DecidableEq

/-- Model of `html.unescape` at the top of `html_to_markdown`, restricted to
ampersand-free input (CPython returns the string unchanged when it contains
no ampersand).  Called on `None`, the membership test `if '&' not in s`
raises `TypeError`, so the embedded function returns an error. -/
def htmlUnescape : Option String → Except PyErr String
  | none => .error .typeError
  | some s => .ok s

/-- Model of the BeautifulSoup parse (external collaborator) on tag-free,
entity-free input: the empty string parses to an empty soup, any other plain
string to a single text node.  The sentinel inputs of the claims are all of
this shape. -/
def parsePlainText (s : String) : List Html :=
  if s.isEmpty then [] else [.text s]

/-- A call to `html_to_markdown` on a possibly-absent plain-string body:
unescape (which raises on `None`), parse, prune, convert, clean up.  There
is no sentinel check anywhere in the source function. -/
def html_to_markdown_call (inp : Option String) (cfg : UnwantedCfg) :
    Except PyErr String :=
  match htmlUnescape inp with
  | .error e => .error e
  | .ok s => .ok (html_to_markdown cfg (parsePlainText s))

/-! ## ABS-CBN adapter pagination (src/news/apis.py lines 15-112)

One feed item is embedded by its parsed `createdDateFull` timestamp (an
integer, ordered like the datetime) and whether it carries a
`slugline_url`.  The feed is the list of pages the content API serves at
offsets 0, 100, 200, ...; a position past the end of that list is a page
with no items, which makes the loop hit its `if not articles: break`. -/

/-- One item of the ABS-CBN `listItem` feed. -/
structure AbsItem where
  created : Int
  hasSlug : Bool
deriving DecidableEq

/-- The per-page filter loop: walk the page in order, parse each item's
timestamp into `created_date`, stop at the first item older than
`start_date`.  Returns the collected items and the final value of the
`created_date` variable (the loop variable also read by the enclosing
`while`). -/
def scanPage (sd : Int) : Int → List AbsItem → List AbsItem × Int
  | cd, [] => ([], cd)
  | _, i :: rest =>
    if i.created < sd then ([], i.created)
    else (i :: (scanPage sd i.created rest).1, (scanPage sd i.created rest).2)

/-- The `while created_date >= start_date` pagination loop of
`abscbn_articles`: fetch the page at the current offset (one request per
iteration), break on an empty page, filter by date, fan out detail fetches
for the filtered items that have a `slugline_url`, and insert one record per
detail (its `publish_time` is the item's parsed timestamp).  Returns the
number of page requests issued and the `publish_time`s of the inserted
records. -/
def absRun (sd : Int) : Int → List (List AbsItem) → Nat × List Int
  | cd, [] => if cd < sd then (0, []) else (1, [])
  | cd, p :: rest =>
    if cd < sd then (0, [])
    else if p.isEmpty then (1, [])
    else
      (((absRun sd (scanPage sd cd p).2 rest).1 + 1),
        ((scanPage sd cd p).1.filter (fun i => i.hasSlug)).map (fun i => i.created)
          ++ (absRun sd (scanPage sd cd p).2 rest).2)

/-! ## Storage backends (src/util/storage_backend.py, src/util/sqlite.py)

A table is a list of rows; a row is the fixed ten-column record shape.
`INSERT OR REPLACE` (SQLite) and `INSERT ... ON CONFLICT (id) DO UPDATE SET`
over all non-key columns (DuckDB) are embedded by their documented effect on
the id-keyed table.  The BigQuery backend's buffer, submitted load jobs and
append-only destination table are explicit state. -/

/-- The common ten-column record shape persisted by every backend. -/
structure Row where
  id : String
  source : Option String
  url : Option String
  category : Option String
  title : Option String
  author : Option String
  date : Option String
  publish_time : Option String
  content : Option String
  tags : Option String
deriving DecidableEq

/-- Effect of SQLite `INSERT OR REPLACE` keyed on the `id` primary key:
any existing row with the same id is replaced by the new row. -/
def sqliteUpsert (t : List Row) (r : Row) : List Row :=
  t.filter (fun x => x.id != r.id) ++ [r]

/-- Effect of DuckDB `INSERT ... ON CONFLICT (id) DO UPDATE SET` with every
non-key column set from `EXCLUDED`: on conflict the stored row's non-key
columns all become the new row's values (the key is equal anyway), otherwise
the row is appended. -/
def duckdbUpsert (t : List Row) (r : Row) : List Row :=
  if t.any (fun x => x.id == r.id) then
    t.map (fun x => if x.id == r.id then r else x)
  else t ++ [r]

/-- The table-name check shared by `SQLiteBackend._create_table` and
`DuckDBBackend._create_table`: the allow-list is the single environment
table name (`if self.table_name == table_name`), and an unrecognized name
raises `ValueError(f"Unknown table name: ...")`. -/
def createTableExc (envTable tbl : String) : Except String Unit :=
  if tbl = envTable then .ok ()
  else .error ("Unknown table name: " ++ tbl)

/-- Backend state recorded at construction: whether the CREATE TABLE ran and
whether an error was logged instead. -/
structure EmbeddedBackendState where
  db_path : String
  table_name : String
  tableCreated : Bool
  loggedError : Bool
deriving DecidableEq

/-- Constructor `SQLiteBackend.__init__` (src/util/storage_backend.py lines 55-88): the
`_create_table` body is wrapped in `try/except Exception` whose handler only
logs, so the constructor itself is embedded as `Except`-valued to show what
can propagate to the caller. -/
def SQLiteBackend_init (envTable dbPath tbl : String) :
    Except String EmbeddedBackendState :=
  match createTableExc envTable tbl with
  | .ok _ => .ok ⟨dbPath, tbl, true, false⟩
  | .error _ => .ok ⟨dbPath, tbl, false, true⟩

/-- Constructor `DuckDBBackend.__init__` (src/util/storage_backend.py lines 166-199):
same try/except-and-log structure around `_create_table`. -/
def DuckDBBackend_init (envTable dbPath tbl : String) :
    Except String EmbeddedBackendState :=
  match createTableExc envTable tbl with
  | .ok _ => .ok ⟨dbPath, tbl, true, false⟩
  | .error _ => .ok ⟨dbPath, tbl, false, true⟩

/-- Method `SQLiteBackend.insert_record` (lines 90-116): the body re-checks the
table name (raising `ValueError` on mismatch) and runs the upsert, which the
oracle `fails` lets fail like a malformed record would; the surrounding
`try/except Exception` logs and falls through to the `finally` commit, so
the caller always gets a normal return. -/
def SQLiteBackend_insert_record (envTable tbl : String) (fails : Row → Bool)
    (t : List Row) (r : Row) : Except String (List Row) :=
  match
    (if tbl = envTable then
      (if fails r then Except.error "insert failed" else .ok (sqliteUpsert t r))
    else .error ("Unknown table name: " ++ tbl) : Except String (List Row))
  with
  | .ok t2 => .ok t2
  | .error _ => .ok t

/-- Method `SQLiteConnection.insert_record` (src/util/sqlite.py lines 44-81): the
allow-list here is the literal string "articles"; missing keys
(`item['id']`) or execute failures raise inside the `try`, the `except`
logs, and the `finally` commits. -/
def SQLiteConnection_insert_record (tbl : String) (fails : Row → Bool)
    (t : List Row) (r : Row) : Except String (List Row) :=
  match
    (if tbl = "articles" then
      (if fails r then Except.error "insert failed" else .ok (sqliteUpsert t r))
    else .error ("Unknown table name: " ++ tbl) : Except String (List Row))
  with
  | .ok t2 => .ok t2
  | .error _ => .ok t

/-- Method `DuckDBBackend.insert_record` (lines 201-239): same structure with the
DuckDB conflict-update statement, `try/except` logging both the error and
the item. -/
def DuckDBBackend_insert_record (envTable tbl : String) (fails : Row → Bool)
    (t : List Row) (r : Row) : Except String (List Row) :=
  match
    (if tbl = envTable then
      (if fails r then Except.error "insert failed" else .ok (duckdbUpsert t r))
    else .error ("Unknown table name: " ++ tbl) : Except String (List Row))
  with
  | .ok t2 => .ok t2
  | .error _ => .ok t

/-- Method `BigQueryBackend.insert_record` (lines 414-423): hand the record to the
internal queue without blocking; the `try/except` around the enqueue logs
any failure (oracle `enqFails`), so nothing propagates to the caller. -/
def BigQueryBackend_insert_record (enqFails : Bool) (q : List Row) (r : Row) :
    Except String (List Row) :=
  match
    (if enqFails then Except.error "enqueue failed" else .ok (q ++ [r]) :
      Except String (List Row))
  with
  | .ok q2 => .ok q2
  | .error _ => .ok q

/-- State of the BigQuery backend: the in-memory batch buffer, the list of
submitted load jobs (each job's rows), and the destination table contents.
-/
structure BQState where
  buffer : List Row
  jobs : List (List Row)
  table : List Row
deriving DecidableEq

/-- Method `_flush_buffer_async` (lines 425-473), success path: an empty buffer is
a no-op; otherwise one `WRITE_APPEND` load job is submitted with the
buffer's rows and the buffer is cleared. -/
def bqFlushBuffer (st : BQState) : BQState :=
  if st.buffer.isEmpty then st
  else { buffer := [], jobs := st.jobs ++ [st.buffer],
         table := st.table ++ st.buffer }

/-- One iteration of the `_process_queue` consumer loop (lines 491-530) on a
dequeued item: append it to the buffer, and flush when the buffer has
reached `buffer_size`. -/
def bqConsume (bufferSize : Nat) (st : BQState) (it : Row) : BQState :=
  if bufferSize ≤ st.buffer.length + 1 then
    bqFlushBuffer { st with buffer := st.buffer ++ [it] }
  else { st with buffer := st.buffer ++ [it] }

/-- The consumer loop draining a sequence of queued records in order. -/
def bqDrain (bufferSize : Nat) (st : BQState) (items : List Row) : BQState :=
  items.foldl (bqConsume bufferSize) st

/-- Method `BigQueryBackend.close` (lines 565-595): the stop sentinel ends the
consumer loop, whose `finally` block flushes a non-empty buffer; then the
post-close cleanup rewrites the destination table as
`SELECT DISTINCT * FROM table`, collapsing full-row duplicates only. -/
def bqClose (st : BQState) : BQState :=
  { bqFlushBuffer st with table := (bqFlushBuffer st).table.dedup }

/-- A complete BigQuery run: every inserted record is queued and drained by
the consumer, then `close()` runs. -/
def bqRun (bufferSize : Nat) (items : List Row) : BQState :=
  bqClose (bqDrain bufferSize ⟨[], [], []⟩ items)

/-! ## Orchestrator signal handling (src/main.py lines 18-46, 128-135)

`storage_instance` is the module-level global the signal handler reads.  It
is initialized to `None` at line 19; the comment at line 130 says
`get_all_articles` will set it, but `get_all_articles` in `src/news/apis.py`
takes only `start_date` and assigns no global of `main`, so no assignment to
it exists anywhere in the program. -/

/-- The value of `main.storage_instance` at any point of a run: `None` at
module load, and never reassigned (no statement in the repository writes to
it). -/
def storage_instance : Option BQState := none

/-- Handler `signal_handler` (lines 22-46): close the storage if the global holds
one; returns how many `close()` calls it performs. -/
def signal_handler_close_calls : Option BQState → Nat
  | some _ => 1
  | none => 0

/-- Handler `signal_handler`, state effect: the storage reachable from the global is
closed (flush and dedup); an absent reference leaves every backend
untouched. -/
def signal_handler_state : Option BQState → Option BQState
  | some st => some (bqClose st)
  | none => none

/-! ## Adapter write destinations (src/news/apis.py lines 12-13, 454-463)

All three API adapters persist through the module-level connection
`sqlite = SQLiteConnection('articles.db', 'articles')`.  A write is the
destination (database path, table name) paired with the record's publish
timestamp. -/

/-- The module-level connection of `src/news/apis.py` line 13. -/
def module_sqlite_dest : String × String := ("articles.db", "articles")

/-- The writes of `abscbn_articles`: one insert per emitted record, each
through the module-level connection. -/
def abscbn_writes (sd cd : Int) (pages : List (List AbsItem)) :
    List ((String × String) × Int) :=
  (absRun sd cd pages).2.map (fun t => (module_sqlite_dest, t))

/-- One Rappler post, by its parsed publish timestamp. -/
structure RapArt where
  pub : Int
deriving DecidableEq

/-- The `while True` loop of `rappler_articles`: each successfully fetched
page has all its articles inserted through the module-level connection; the
first failing page fetch raises, is caught, and breaks the loop (the feed
list holds exactly the successful pages). -/
def rappler_run : List (List RapArt) → List ((String × String) × Int)
  | [] => []
  | p :: rest => p.map (fun a => (module_sqlite_dest, a.pub)) ++ rappler_run rest

/-- One Manila Bulletin article summary, by its parsed publish timestamp. -/
structure MbArt where
  pub : Int
deriving DecidableEq

/-- The per-section page loop of `manila_bulletin_articles`: break on a
failed or empty page; keep the articles dated on or after `start_date`;
break to the next section when none qualify, else insert them through the
module-level connection and continue with the next page. -/
def manila_section (sd : Int) : List (List MbArt) → List ((String × String) × Int)
  | [] => []
  | p :: rest =>
    if p.isEmpty then []
    else
      if (p.filter (fun a => sd ≤ a.pub)).isEmpty then []
      else (p.filter (fun a => sd ≤ a.pub)).map (fun a => (module_sqlite_dest, a.pub))
        ++ manila_section sd rest

/-- Adapter `manila_bulletin_articles` over its section list. -/
def manila_run (sd : Int) (sections : List (List (List MbArt))) :
    List ((String × String) × Int) :=
  match sections with
  | [] => []
  | s :: rest => manila_section sd s ++ manila_run sd rest

/-- Function `get_all_articles` (src/news/apis.py lines 454-463): run the three API
adapters in sequence against the same module-level connection.  Its only
parameter is `start_date`; it accepts no storage-backend argument. -/
def get_all_articles_writes (sd cd : Int) (absPages : List (List AbsItem))
    (rapPages : List (List RapArt)) (mbSections : List (List (List MbArt))) :
    List ((String × String) × Int) :=
  abscbn_writes sd cd absPages ++ rappler_run rapPages ++ manila_run sd mbSections

/-- The backend kinds selectable through `config.py` / `--backend`. -/
inductive BackendKind where
  | sqlite
  | duckdb
  | bigquery
deriving DecidableEq

/-! ## Concrete records used by counterexamples and witnesses -/

/-- A concrete well-formed record. -/
def rowA : Row :=
  ⟨"a1", some "abs-cbn", some "u", some "NEWS", some "t1", none,
    some "2026-10-01", some "2026-10-01 08:00:00", some "c1", some "x"⟩

/-- A second concrete record with the same id as `rowA` but a different
title (a non-key field). -/
def rowB : Row :=
  ⟨"a1", some "abs-cbn", some "u", some "NEWS", some "t2", none,
    some "2026-10-01", some "2026-10-01 08:00:00", some "c1", some "x"⟩

/-- A record with a distinct id. -/
def rowC : Row :=
  ⟨"c3", some "rappler", some "u3", some "nation", some "t3", none,
    some "2026-10-02", some "2026-10-02 09:00:00", some "c3", some "y"⟩

/-! ## Predicates used by the property statements -/

/-- A character pattern occurs contiguously somewhere in a list. -/
def ContainsSeg (pat l : List Char) : Prop :=
  ∃ a b, l = a ++ (pat ++ b)

/-- A node predicate that looks only at an element's tag and attributes,
never at its children.  All the selectors of `html_to_markdown` are of this
shape. -/
def ChildBlind (p : Html → Bool) : Prop :=
  ∀ t i c ch ch', p (.elem t i c ch) = p (.elem t i c ch')

/-! ## C1: graceful-shutdown flush -/

/-- C1.  The spec requires the installed signal handler to close-and-flush
the run's storage backend, with `close()` called exactly once, so that all
buffered records reach the destination table.  In the code the handler can
only reach the backend through the module global `storage_instance`, which
is `None` at line 19 of `src/main.py` and is never assigned afterwards
(`get_all_articles` takes only `start_date` and sets no global of `main`,
despite the comment at line 130 claiming it will).  So at any interrupt the
handler performs zero `close()` calls and flushes nothing; the last conjunct
shows that a `close()` on a backend holding one buffered record would have
put that record in the destination table, which is exactly what the dead
handler path fails to do. -/
theorem signal_handler_never_flushes :
    signal_handler_close_calls storage_instance = 0 ∧
    signal_handler_state storage_instance = none ∧
    (bqClose { buffer := [rowA], jobs := [], table := [] }).table = [rowA] :=
  ⟨rfl, rfl, by decide⟩

/-! ## C3: table-name allow-list at construction -/

/-- C3, counterexample.  The claim says construction with a table name
outside the allow-list raises immediately to the caller and never completes.
In the code the `raise ValueError(...)` sits inside `_create_table`'s own
`try/except Exception` block, whose handler only logs; both embedded
constructors therefore return a completed backend (with the table never
created and an error logged) instead of propagating the error. -/
theorem table_name_construction_cex :
    SQLiteBackend_init "articles_raw" "articles_raw.db" "bogus"
        = .ok ⟨"articles_raw.db", "bogus", false, true⟩ ∧
    DuckDBBackend_init "articles_raw" "articles_raw.duckdb" "bogus"
        = .ok ⟨"articles_raw.duckdb", "bogus", false, true⟩ ∧
    ("bogus" : String) ≠ "articles_raw" := by
  refine ⟨rfl, rfl, by decide⟩

/-- C3, amended.  For every table name outside the allow-list, the
`ValueError` raised inside `_create_table` is caught by that method's own
exception handler and logged: construction completes normally and returns a
backend whose table was never created, for both embedded backends. -/
theorem table_allowlist_amended (envTable dbPath tbl : String)
    (h : tbl ≠ envTable) :
    SQLiteBackend_init envTable dbPath tbl = .ok ⟨dbPath, tbl, false, true⟩ ∧
    DuckDBBackend_init envTable dbPath tbl = .ok ⟨dbPath, tbl, false, true⟩ := by
  simp [SQLiteBackend_init, DuckDBBackend_init, createTableExc, h]

/-- Witness for the amended C3 at a concrete unknown table name. -/
theorem table_allowlist_amended_witness :
    ("bad" : String) ≠ "articles_raw" ∧
    SQLiteBackend_init "articles_raw" "d.db" "bad"
      = .ok ⟨"d.db", "bad", false, true⟩ :=
  ⟨by decide, (table_allowlist_amended "articles_raw" "d.db" "bad" (by decide)).1⟩

/-! ## C2: idempotent upsert across backends -/

/-- C2, counterexample.  Two inserts with the same id but a different title
(a non-key field) followed by a complete BigQuery run including `close()`
leave two rows with that id in the destination table: the post-close
cleanup is `SELECT DISTINCT *`, which only collapses full-row duplicates.
The claim requires exactly one row with the second insert's values. -/
theorem bigquery_upsert_cex :
    rowA.id = rowB.id ∧ rowA ≠ rowB ∧
    (bqRun 100 [rowA, rowB]).table = [rowA, rowB] ∧
    ((bqRun 100 [rowA, rowB]).table.filter (fun r => r.id == "a1")).length = 2 := by
  decide

/-- C2, amended.  Inserting two records with the same id leaves exactly one
row, with the second insert's values, in the SQLite and DuckDB backends; the
BigQuery backend only guarantees this when the two inserts are identical
full rows (its close-time deduplication is `SELECT DISTINCT *`), in which
case one row remains after the run. -/
theorem upsert_amended (r1 r2 : Row) (h : r1.id = r2.id) :
    sqliteUpsert (sqliteUpsert [] r1) r2 = [r2] ∧
    duckdbUpsert (duckdbUpsert [] r1) r2 = [r2] ∧
    (r1 = r2 → (bqRun 100 [r1, r2]).table = [r2]) := by
  refine ⟨?_, ?_, ?_⟩
  · simp [sqliteUpsert, List.filter, h]
  · simp [duckdbUpsert, List.any_cons, h]
  · rintro rfl
    show (bqClose (bqDrain 100 ⟨[], [], []⟩ [r1, r1])).table = [r1]
    have hd : (([r1, r1] : List Row)).dedup = [r1] := by
      rw [List.dedup_cons_of_mem (by simp),
        List.dedup_cons_of_not_mem (by simp), List.dedup_nil]
    simp [bqDrain, bqConsume, bqClose, bqFlushBuffer, hd]

/-- Witness for the amended C2: the embedded upserts at concrete records
with equal ids, and the BigQuery run at two identical inserts. -/
theorem upsert_amended_witness :
    rowA.id = rowB.id ∧
    sqliteUpsert (sqliteUpsert [] rowA) rowB = [rowB] ∧
    duckdbUpsert (duckdbUpsert [] rowA) rowB = [rowB] ∧
    (bqRun 100 [rowA, rowA]).table = [rowA] :=
  ⟨by decide, (upsert_amended rowA rowB (by decide)).1,
    (upsert_amended rowA rowB (by decide)).2.1,
    (upsert_amended rowA rowA rfl).2.2 rfl⟩

/-! ## C9: insert_record never raises -/

/-- C9.  For each backend, `insert_record` wraps the fallible insert in
`try/except` whose handler only logs: whatever the oracle `fails` says about
the record (malformed fields, constraint violation) and whatever the
enqueue does for the cloud backend, the call returns normally — with the
upsert applied on success and the record dropped (state unchanged) on
failure, so a single bad record cannot abort a run. -/
theorem insert_record_never_raises (envTable tbl : String)
    (fails : Row → Bool) (t : List Row) (r : Row) (enqFails : Bool)
    (q : List Row) :
    SQLiteBackend_insert_record envTable tbl fails t r
        = .ok (if tbl = envTable then (if fails r then t else sqliteUpsert t r) else t) ∧
    SQLiteConnection_insert_record tbl fails t r
        = .ok (if tbl = "articles" then (if fails r then t else sqliteUpsert t r) else t) ∧
    DuckDBBackend_insert_record envTable tbl fails t r
        = .ok (if tbl = envTable then (if fails r then t else duckdbUpsert t r) else t) ∧
    BigQueryBackend_insert_record enqFails q r
        = .ok (if enqFails then q else q ++ [r]) := by
  refine ⟨?_, ?_, ?_, ?_⟩
  · by_cases h1 : tbl = envTable <;> by_cases h2 : fails r <;>
      simp [SQLiteBackend_insert_record, h1, h2]
  · by_cases h1 : tbl = "articles" <;> by_cases h2 : fails r <;>
      simp [SQLiteConnection_insert_record, h1, h2]
  · by_cases h1 : tbl = envTable <;> by_cases h2 : fails r <;>
      simp [DuckDBBackend_insert_record, h1, h2]
  · cases enqFails <;> simp [BigQueryBackend_insert_record]

/-! ## C8: cloud buffer flush discipline -/

/-- While the buffer stays strictly below the threshold, the consumer loop
only accumulates: no load job is submitted. -/
theorem bqDrain_small (bs : Nat) :
    ∀ (items : List Row) (st : BQState),
      st.buffer.length + items.length < bs →
      bqDrain bs st items = { st with buffer := st.buffer ++ items } := by
  intro items
  induction items with
  | nil => intro st _; simp [bqDrain]
  | cons it rest ih =>
    intro st h
    have hlen : (rest : List Row).length + 1 = (it :: rest).length := by simp
    have hno : ¬ bs ≤ st.buffer.length + 1 := by
      simp only [List.length_cons] at h; omega
    have hstep : bqConsume bs st it = { st with buffer := st.buffer ++ [it] } := by
      simp [bqConsume, hno]
    have htail : bqDrain bs st (it :: rest)
        = bqDrain bs (bqConsume bs st it) rest := by
      simp [bqDrain]
    have hrec := ih { st with buffer := st.buffer ++ [it] }
      (by simp at h ⊢; omega)
    rw [htail, hstep, hrec]
    simp

/-- C8.  With flush threshold `bs`: draining exactly `bs` inserted records
submits exactly one load job (holding all `bs` records) and empties the
buffer, without `close()`; draining `bs - 1` records submits no job, and the
one job of the run is then submitted by the final flush inside `close()`. -/
theorem bigquery_buffer_flush (bs : Nat) (items1 items2 : List Row)
    (hbs : 2 ≤ bs) (h1 : items1.length = bs) (h2 : items2.length = bs - 1) :
    (bqDrain bs ⟨[], [], []⟩ items1).jobs = [items1] ∧
    (bqDrain bs ⟨[], [], []⟩ items1).buffer = [] ∧
    (bqDrain bs ⟨[], [], []⟩ items2).jobs = [] ∧
    (bqClose (bqDrain bs ⟨[], [], []⟩ items2)).jobs = [items2] := by
  have hmain : bqDrain bs ⟨[], [], []⟩ items1
      = ⟨[], [items1], items1⟩ := by
    rcases List.eq_nil_or_concat items1 with hnil | ⟨ys, y, hys⟩
    · exfalso; rw [hnil] at h1; simp at h1; omega
    · subst hys
      have hys_len : ys.length + 1 = bs := by simpa using h1
      have hfront : bqDrain bs ⟨[], [], []⟩ ys
          = { buffer := ys, jobs := [], table := [] } := by
        have := bqDrain_small bs ys ⟨[], [], []⟩ (by simp; omega)
        simpa using this
      have : bqDrain bs ⟨[], [], []⟩ (ys.concat y)
          = bqConsume bs (bqDrain bs ⟨[], [], []⟩ ys) y := by
        simp [bqDrain, List.concat_eq_append, List.foldl_append]
      rw [List.concat_eq_append] at this ⊢
      rw [this, hfront]
      have hfull : bs ≤ ys.length + 1 := by omega
      have hne : ((ys ++ [y] : List Row)).isEmpty = false := by
        simp [List.isEmpty_eq_true]
      simp [bqConsume, hfull, bqFlushBuffer, hne]
  have hsmall : bqDrain bs ⟨[], [], []⟩ items2
      = { buffer := items2, jobs := [], table := [] } := by
    have := bqDrain_small bs items2 ⟨[], [], []⟩ (by simp [h2]; omega)
    simpa using this
  have hne2 : (items2 : List Row).isEmpty = false := by
    have : items2 ≠ [] := by
      intro hh; rw [hh] at h2; simp at h2; omega
    simp [List.isEmpty_eq_true, this]
  refine ⟨?_, ?_, ?_, ?_⟩
  · rw [hmain]
  · rw [hmain]
  · rw [hsmall]
  · rw [hsmall]; simp [bqClose, bqFlushBuffer, hne2]

/-- Witness for C8 at threshold 2: two records drained flush once with an
empty buffer; one record drained flushes nothing until `close()` submits the
single job of the run. -/
theorem bigquery_buffer_flush_witness :
    (2 ≤ 2 ∧ ([rowA, rowC] : List Row).length = 2 ∧
      ([rowA] : List Row).length = 2 - 1) ∧
    (bqDrain 2 ⟨[], [], []⟩ [rowA, rowC]).jobs = [[rowA, rowC]] ∧
    (bqDrain 2 ⟨[], [], []⟩ [rowA, rowC]).buffer = [] ∧
    (bqDrain 2 ⟨[], [], []⟩ [rowA]).jobs = [] ∧
    (bqClose (bqDrain 2 ⟨[], [], []⟩ [rowA])).jobs = [[rowA]] :=
  ⟨⟨by decide, by decide, by decide⟩,
    bigquery_buffer_flush 2 [rowA, rowC] [rowA] (by decide) (by decide) (by decide)⟩

/-! ## C4: ABS-CBN pagination termination -/

/-- Every item the page filter collects passed the date check. -/
theorem scanPage_mem (sd : Int) :
    ∀ (p : List AbsItem) (cd : Int), ∀ i ∈ (scanPage sd cd p).1, sd ≤ i.created := by
  intro p
  induction p with
  | nil => intro cd i hi; simp [scanPage] at hi
  | cons a rest ih =>
    intro cd i hi
    by_cases ha : a.created < sd
    · simp [scanPage, ha] at hi
    · simp only [scanPage, if_neg ha, List.mem_cons] at hi
      rcases hi with rfl | hi
      · omega
      · exact ih a.created i hi

/-- When the page contains an item older than `start_date`, the filter loop
breaks on the first such item and leaves `created_date` strictly below
`start_date`, so the `while` loop exits before requesting another page. -/
theorem scanPage_old (sd : Int) :
    ∀ (p : List AbsItem) (cd : Int),
      (∃ i ∈ p, i.created < sd) → (scanPage sd cd p).2 < sd := by
  intro p
  induction p with
  | nil => intro cd h; simp at h
  | cons a rest ih =>
    intro cd h
    by_cases ha : a.created < sd
    · simp [scanPage, ha]
    · have : ∃ i ∈ rest, i.created < sd := by
        rcases h with ⟨i, hi, hlt⟩
        rcases List.mem_cons.mp hi with rfl | hi
        · omega
        · exact ⟨i, hi, hlt⟩
      simp only [scanPage, if_neg ha]
      exact ih a.created this

/-- When every item of the page is on or after `start_date`, the filter
collects the whole page and `created_date` stays on or after `start_date`
(it keeps its previous value on an empty page). -/
theorem scanPage_all_new (sd : Int) :
    ∀ (p : List AbsItem) (cd : Int), (∀ i ∈ p, sd ≤ i.created) →
      (scanPage sd cd p).1 = p ∧ (sd ≤ cd → sd ≤ (scanPage sd cd p).2) := by
  intro p
  induction p with
  | nil => intro cd _; simp [scanPage]
  | cons a rest ih =>
    intro cd hall
    have ha : ¬ a.created < sd := not_lt.mpr (hall a (List.mem_cons_self a rest))
    have hrest : ∀ i ∈ rest, sd ≤ i.created :=
      fun i hi => hall i (List.mem_cons_of_mem a hi)
    have hrec := ih a.created hrest
    refine ⟨?_, ?_⟩
    · simp only [scanPage, if_neg ha, hrec.1]
    · intro _
      simp only [scanPage, if_neg ha]
      exact hrec.2 (not_lt.mp ha)

/-- Once `created_date` has fallen below `start_date` the while loop
requests nothing further. -/
theorem absRun_stop (sd cd : Int) (h : cd < sd) :
    ∀ pages, absRun sd cd pages = (0, []) := by
  intro pages
  cases pages <;> simp [absRun, h]

/-- C4.  Against a feed whose first `N - 1` pages are nonempty and entirely
on or after `start_date` and whose `N`-th page contains an item older than
`start_date`, the adapter issues exactly `N` page requests — whatever pages
lie beyond the `N`-th are never fetched — and every record it inserts has
`publish_time` on or after `start_date`. -/
theorem abscbn_pagination (sd cd : Int) (front : List (List AbsItem))
    (lastPage : List AbsItem) (after : List (List AbsItem))
    (hcd : sd ≤ cd)
    (hfront : ∀ p ∈ front, p ≠ [] ∧ ∀ i ∈ p, sd ≤ i.created)
    (hlast : ∃ i ∈ lastPage, i.created < sd) :
    (absRun sd cd (front ++ lastPage :: after)).1 = front.length + 1 ∧
    ∀ t ∈ (absRun sd cd (front ++ lastPage :: after)).2, sd ≤ t := by
  induction front generalizing cd with
  | nil =>
    obtain ⟨i0, hi0, hold⟩ := hlast
    have hne : lastPage ≠ [] := List.ne_nil_of_mem hi0
    have hcd' : ¬ cd < sd := not_lt.mpr hcd
    have hemp : lastPage.isEmpty = false := by
      simp [List.isEmpty_eq_true, hne]
    have hstop := absRun_stop sd (scanPage sd cd lastPage).2
      (scanPage_old sd lastPage cd ⟨i0, hi0, hold⟩) after
    simp only [List.nil_append, absRun, if_neg hcd', hemp, Bool.false_eq_true,
      if_false, hstop, List.length_nil]
    constructor
    · trivial
    · intro t ht
      simp only [List.append_nil, List.mem_map] at ht
      obtain ⟨i, hi, rfl⟩ := ht
      exact scanPage_mem sd lastPage cd i (List.mem_of_mem_filter hi)
  | cons p front' ih =>
    have hp := hfront p (List.mem_cons_self p front')
    have hcd' : ¬ cd < sd := not_lt.mpr hcd
    have hemp : p.isEmpty = false := by
      simp [List.isEmpty_eq_true, hp.1]
    have hscan := scanPage_all_new sd p cd hp.2
    have hcd2 : sd ≤ (scanPage sd cd p).2 := hscan.2 hcd
    have hrec := ih (scanPage sd cd p).2 hcd2
      (fun q hq => hfront q (List.mem_cons_of_mem p hq))
    simp only [List.cons_append, absRun, if_neg hcd', hemp, Bool.false_eq_true,
      if_false]
    constructor
    · simp [hrec.1]
    · intro t ht
      rcases List.mem_append.mp ht with ht | ht
      · obtain ⟨i, hi, rfl⟩ := List.mem_map.mp ht
        exact hp.2 i (by rw [hscan.1] at hi; exact List.mem_of_mem_filter hi)
      · exact hrec.2 t ht

/-- Witness for C4: the spec's concrete two-page scenario — page 1 has three
new items, page 2 one new then one old item, everything carrying a slug.
Exactly two page requests are made (a third page behind the feed is never
fetched), four records are inserted, all dated on or after `start_date`. -/
theorem abscbn_pagination_witness :
    ((0 : Int) ≤ 10 ∧
      (∀ p ∈ [[(⟨5, true⟩ : AbsItem), ⟨4, true⟩, ⟨3, true⟩]],
        p ≠ [] ∧ ∀ i ∈ p, (0 : Int) ≤ i.created) ∧
      (∃ i ∈ [(⟨2, true⟩ : AbsItem), ⟨-1, true⟩], i.created < 0)) ∧
    (absRun 0 10 ([[⟨5, true⟩, ⟨4, true⟩, ⟨3, true⟩]] ++
        [⟨2, true⟩, ⟨-1, true⟩] :: [[⟨9, true⟩]])).1 = 2 ∧
    (∀ t ∈ (absRun 0 10 ([[⟨5, true⟩, ⟨4, true⟩, ⟨3, true⟩]] ++
        [⟨2, true⟩, ⟨-1, true⟩] :: [[⟨9, true⟩]])).2, (0 : Int) ≤ t) ∧
    (absRun 0 10 ([[⟨5, true⟩, ⟨4, true⟩, ⟨3, true⟩]] ++
        [⟨2, true⟩, ⟨-1, true⟩] :: [[⟨9, true⟩]])).2 = [5, 4, 3, 2] :=
  ⟨⟨by decide, by decide, by decide⟩,
    (abscbn_pagination 0 10 [[⟨5, true⟩, ⟨4, true⟩, ⟨3, true⟩]]
      [⟨2, true⟩, ⟨-1, true⟩] [[⟨9, true⟩]] (by decide) (by decide) (by decide)).1,
    (abscbn_pagination 0 10 [[⟨5, true⟩, ⟨4, true⟩, ⟨3, true⟩]]
      [⟨2, true⟩, ⟨-1, true⟩] [[⟨9, true⟩]] (by decide) (by decide) (by decide)).2,
    by decide⟩

/-! ## C10: adapters always write to the module-level SQLite connection -/

/-- Every Rappler write targets the module-level connection. -/
theorem rappler_run_dest :
    ∀ (pages : List (List RapArt)) (w : (String × String) × Int),
      w ∈ rappler_run pages → w.1 = module_sqlite_dest := by
  intro pages
  induction pages with
  | nil => intro w hw; simp [rappler_run] at hw
  | cons p rest ih =>
    intro w hw
    rcases List.mem_append.mp hw with hw | hw
    · obtain ⟨a, _, rfl⟩ := List.mem_map.mp hw; rfl
    · exact ih w hw

/-- Every Manila Bulletin write within a section targets the module-level
connection. -/
theorem manila_section_dest (sd : Int) :
    ∀ (pages : List (List MbArt)) (w : (String × String) × Int),
      w ∈ manila_section sd pages → w.1 = module_sqlite_dest := by
  intro pages
  induction pages with
  | nil => intro w hw; simp [manila_section] at hw
  | cons p rest ih =>
    intro w hw
    by_cases h1 : p.isEmpty
    · simp [manila_section, h1] at hw
    · by_cases h2 : (p.filter (fun a => sd ≤ a.pub)).isEmpty
      · simp only [manila_section, if_neg h1, if_pos h2] at hw
        simp at hw
      · simp only [manila_section, if_neg h1, if_neg h2] at hw
        rcases List.mem_append.mp hw with hw | hw
        · obtain ⟨a, _, rfl⟩ := List.mem_map.mp hw; rfl
        · exact ih w hw

/-- Every Manila Bulletin write targets the module-level connection. -/
theorem manila_run_dest (sd : Int) :
    ∀ (sections : List (List (List MbArt))) (w : (String × String) × Int),
      w ∈ manila_run sd sections → w.1 = module_sqlite_dest := by
  intro sections
  induction sections with
  | nil => intro w hw; simp [manila_run] at hw
  | cons s rest ih =>
    intro w hw
    rcases List.mem_append.mp hw with hw | hw
    · exact manila_section_dest sd s w hw
    · exact ih w hw

/-- C10.  Every record emitted by any of the three API adapters during
`get_all_articles` is written through the module-level connection
`SQLiteConnection('articles.db', 'articles')` of `src/news/apis.py`;
`get_all_articles` has no storage-backend parameter, so the configured
backend kind (and the backend keyword arguments `main` supplies) cannot
change where these adapters write. -/
theorem adapters_write_destination (sd cd : Int)
    (absPages : List (List AbsItem)) (rapPages : List (List RapArt))
    (mbSections : List (List (List MbArt))) :
    module_sqlite_dest = ("articles.db", "articles") ∧
    ∀ w ∈ get_all_articles_writes sd cd absPages rapPages mbSections,
      w.1 = ("articles.db", "articles") := by
  refine ⟨rfl, ?_⟩
  intro w hw
  rcases List.mem_append.mp hw with hw | hw
  · rcases List.mem_append.mp hw with hw | hw
    · obtain ⟨t, _, rfl⟩ := List.mem_map.mp hw; rfl
    · exact rappler_run_dest rapPages w hw
  · exact manila_run_dest sd mbSections w hw

/-- Witness for C10: a concrete small run of all three adapters, and a
concrete emitted write whose destination is the module-level connection. -/
theorem adapters_write_destination_witness :
    ((("articles.db", "articles"), (5 : Int)) ∈
      get_all_articles_writes 0 10 [[⟨5, true⟩], [⟨-2, true⟩]] [[⟨7⟩]] [[[⟨3⟩]]]) ∧
    ((("articles.db", "articles"), (5 : Int)) :
      (String × String) × Int).1 = ("articles.db", "articles") :=
  ⟨by decide,
    (adapters_write_destination 0 10 [[⟨5, true⟩], [⟨-2, true⟩]] [[⟨7⟩]]
      [[[⟨3⟩]]]).2 (("articles.db", "articles"), (5 : Int)) (by decide)⟩

/-! ## C6: whitespace laws of the cleanup pipeline -/

/-- Decompose an occurrence in a cons cell: either the pattern starts right
at the head or it occurs in the tail. -/
theorem containsSeg_cons {pat : List Char} {c : Char} {l : List Char} :
    ContainsSeg pat (c :: l) ↔
      (∃ b, c :: l = pat ++ b) ∨ ContainsSeg pat l := by
  constructor
  · rintro ⟨a, b, h⟩
    cases a with
    | nil => exact Or.inl ⟨b, by simpa using h⟩
    | cons x xs =>
      rw [List.cons_append] at h
      injection h with h1 h2
      exact Or.inr ⟨xs, b, h2⟩
  · rintro (⟨b, h⟩ | ⟨a, b, h⟩)
    · exact ⟨[], b, by simpa using h⟩
    · exact ⟨c :: a, b, by simp [h]⟩

/-- An occurrence in a tail is an occurrence in the whole list. -/
theorem containsSeg_of_tail {pat : List Char} {c : Char} {l : List Char}
    (h : ContainsSeg pat l) : ContainsSeg pat (c :: l) := by
  obtain ⟨a, b, rfl⟩ := h
  exact ⟨c :: a, b, by simp⟩

/-- An occurrence inside a sublist placed in context is an occurrence in the
whole list. -/
theorem containsSeg_of_between {pat x y m : List Char}
    (h : ContainsSeg pat m) : ContainsSeg pat (x ++ (m ++ y)) := by
  obtain ⟨a, b, rfl⟩ := h
  exact ⟨x ++ a, b ++ y, by simp⟩

/-- After the newline-collapse with two newlines already emitted, the output
cannot begin with a newline. -/
theorem capNL_head_ne :
    ∀ (l : List Char) (k : Nat), 2 ≤ k → ∀ b, capNL k l ≠ '\n' :: b := by
  intro l
  induction l with
  | nil => intro k _ b h; simp [capNL] at h
  | cons c rest ih =>
    intro k hk b h
    by_cases hc : c = '\n'
    · rw [capNL, if_pos hc, if_pos hk] at h
      exact ih k hk b h
    · rw [capNL, if_neg hc] at h
      injection h with h1
      exact hc h1

/-- After the newline-collapse with at least one newline already emitted,
the output cannot begin with two newlines. -/
theorem capNL_head2_ne :
    ∀ (l : List Char) (k : Nat), 1 ≤ k → ∀ b, capNL k l ≠ '\n' :: '\n' :: b := by
  intro l
  induction l with
  | nil => intro k _ b h; simp [capNL] at h
  | cons c rest ih =>
    intro k hk b h
    by_cases hc : c = '\n'
    · by_cases h2 : 2 ≤ k
      · rw [capNL, if_pos hc, if_pos h2] at h
        exact ih k hk b h
      · rw [capNL, if_pos hc, if_neg h2] at h
        injection h with h1 h3
        exact capNL_head_ne rest (k + 1) (by omega) b h3
    · rw [capNL, if_neg hc] at h
      injection h with h1
      exact hc h1

/-- The newline-collapse output never contains three consecutive newlines:
each maximal newline run is capped at two. -/
theorem capNL_noTriple :
    ∀ (l : List Char) (k : Nat), ¬ ContainsSeg ['\n', '\n', '\n'] (capNL k l) := by
  intro l
  induction l with
  | nil =>
    intro k h
    obtain ⟨a, b, hab⟩ := h
    simp [capNL] at hab
  | cons c rest ih =>
    intro k h
    by_cases hc : c = '\n'
    · by_cases h2 : 2 ≤ k
      · rw [capNL, if_pos hc, if_pos h2] at h
        exact ih k h
      · rw [capNL, if_pos hc, if_neg h2] at h
        rcases containsSeg_cons.mp h with ⟨b, hb⟩ | h3
        · injection hb with h1 h4
          exact capNL_head2_ne rest (k + 1) (by omega) b h4
        · exact ih (k + 1) h3
    · rw [capNL, if_neg hc] at h
      rcases containsSeg_cons.mp h with ⟨b, hb⟩ | h3
      · injection hb with h1
        exact hc h1
      · exact ih 0 h3

/-- After the space-collapse just emitted a space, the output cannot begin
with another space. -/
theorem capSP_true_head_ne :
    ∀ (l b : List Char), capSP true l ≠ ' ' :: b := by
  intro l
  induction l with
  | nil => intro b h; simp [capSP] at h
  | cons c rest ih =>
    intro b h
    by_cases hc : c = ' '
    · rw [capSP, if_pos hc, if_pos rfl] at h
      exact ih b h
    · rw [capSP, if_neg hc] at h
      injection h with h1
      exact hc h1

/-- With no pending space run, the space-collapse always emits the head
character first. -/
theorem capSP_false_cons (c : Char) (r : List Char) :
    capSP false (c :: r)
      = c :: (if c = ' ' then capSP true r else capSP false r) := by
  by_cases hc : c = ' '
  · subst hc; simp [capSP]
  · simp [capSP, hc]

/-- The space-collapse output never contains two consecutive spaces. -/
theorem capSP_noDouble :
    ∀ (l : List Char) (b : Bool), ¬ ContainsSeg [' ', ' '] (capSP b l) := by
  intro l
  induction l with
  | nil =>
    intro b h
    obtain ⟨a, b', hab⟩ := h
    simp [capSP] at hab
  | cons c rest ih =>
    intro b h
    by_cases hc : c = ' '
    · cases b
      · rw [capSP, if_pos hc, if_neg (by simp)] at h
        rcases containsSeg_cons.mp h with ⟨b', hb⟩ | h3
        · injection hb with h1 h4
          exact capSP_true_head_ne rest b' h4
        · exact ih true h3
      · rw [capSP, if_pos hc, if_pos rfl] at h
        exact ih true h
    · rw [capSP, if_neg hc] at h
      rcases containsSeg_cons.mp h with ⟨b', hb⟩ | h3
      · injection hb with h1
        exact hc h1
      · exact ih false h3

/-- Anything the space-collapse (with no pending run) outputs starts with
the character its input starts with. -/
theorem capSP_false_head :
    ∀ (l : List Char) (c : Char) (rest2 : List Char),
      capSP false l = c :: rest2 →
      ∃ r, l = c :: r ∧
        rest2 = (if c = ' ' then capSP true r else capSP false r) := by
  intro l c rest2 h
  cases l with
  | nil => simp [capSP] at h
  | cons x r =>
    rw [capSP_false_cons] at h
    injection h with h1 h2
    subst h1
    exact ⟨r, rfl, h2.symm⟩

/-- Collapsing spaces never creates a new run of three newlines: every
deleted span of characters is preceded by a kept space, so no two newlines
become adjacent that were not already. -/
theorem capSP_noTriple_preserved :
    ∀ (l : List Char) (b : Bool),
      ¬ ContainsSeg ['\n', '\n', '\n'] l →
      ¬ ContainsSeg ['\n', '\n', '\n'] (capSP b l) := by
  intro l
  induction l with
  | nil =>
    intro b _ h
    obtain ⟨a, b', hab⟩ := h
    simp [capSP] at hab
  | cons c rest ih =>
    intro b hl h
    have hrest : ¬ ContainsSeg ['\n', '\n', '\n'] rest :=
      fun hx => hl (containsSeg_of_tail hx)
    by_cases hc : c = ' '
    · cases b
      · rw [capSP, if_pos hc, if_neg (by simp)] at h
        rcases containsSeg_cons.mp h with ⟨b', hb⟩ | h3
        · injection hb with h1
          exact absurd h1 (by decide)
        · exact ih true hrest h3
      · rw [capSP, if_pos hc, if_pos rfl] at h
        exact ih true hrest h
    · rw [capSP, if_neg hc] at h
      rcases containsSeg_cons.mp h with ⟨b', hb⟩ | h3
      · injection hb with h1 h2
        obtain ⟨r1, hr1, hr1e⟩ := capSP_false_head rest '\n' ('\n' :: b') h2
        rw [if_neg (by decide)] at hr1e
        obtain ⟨r2, hr2, _⟩ := capSP_false_head r1 '\n' b' hr1e.symm
        exact hl ⟨[], r2, by rw [h1, hr1, hr2]; rfl⟩
      · exact ih false hrest h3

/-- The head of a `dropWhile` output fails the dropped predicate. -/
theorem head_dropWhile (p : Char → Bool) :
    ∀ (l : List Char) (c : Char),
      (l.dropWhile p).head? = some c → p c = false := by
  intro l
  induction l with
  | nil => intro c h; simp [List.dropWhile] at h
  | cons x r ih =>
    intro c h
    by_cases hx : p x
    · rw [List.dropWhile_cons_of_pos hx] at h
      exact ih c h
    · rw [List.dropWhile_cons_of_neg hx] at h
      simp at h
      subst h
      simpa using hx

/-- Stripping removes material only at the two ends: the stripped list sits
contiguously inside the original. -/
theorem stripEnds_between :
    ∀ l : List Char, ∃ x y, l = x ++ (stripEnds l ++ y) := by
  intro l
  refine ⟨l.takeWhile isPyWS,
    ((l.dropWhile isPyWS).reverse.takeWhile isPyWS).reverse, ?_⟩
  conv_lhs => rw [← List.takeWhile_append_dropWhile (p := isPyWS) (l := l)]
  congr 1
  conv_lhs =>
    rw [← List.reverse_reverse (l.dropWhile isPyWS),
      ← List.takeWhile_append_dropWhile (p := isPyWS)
        (l := (l.dropWhile isPyWS).reverse)]
  rw [List.reverse_append]
  rfl

/-- A pattern absent from a list is absent from its stripped form. -/
theorem stripEnds_noSeg {pat : List Char} {l : List Char}
    (h : ¬ ContainsSeg pat l) : ¬ ContainsSeg pat (stripEnds l) := by
  intro hx
  obtain ⟨x, y, hxy⟩ := stripEnds_between l
  exact h (hxy ▸ containsSeg_of_between hx)

/-- The first character of a stripped list is not Python whitespace. -/
theorem stripEnds_head (l : List Char) (c : Char)
    (h : (stripEnds l).head? = some c) : isPyWS c = false := by
  unfold stripEnds at h
  rw [List.head?_reverse] at h
  set m := (l.dropWhile isPyWS).reverse with hm
  have hne : m.dropWhile isPyWS ≠ [] := by
    intro hz
    rw [hz] at h
    simp at h
  obtain ⟨t, ht⟩ := List.dropWhile_suffix (l := m) (p := isPyWS)
  have hlast : (m.dropWhile isPyWS).getLast? = m.getLast? := by
    have hx := List.getLast?_append_of_ne_nil t hne
    rw [ht] at hx
    exact hx.symm
  rw [hlast] at h
  rw [hm, List.getLast?_reverse] at h
  exact head_dropWhile isPyWS l c h

/-- The last character of a stripped list is not Python whitespace. -/
theorem stripEnds_last (l : List Char) (c : Char)
    (h : (stripEnds l).getLast? = some c) : isPyWS c = false := by
  unfold stripEnds at h
  rw [List.getLast?_reverse] at h
  exact head_dropWhile isPyWS (l.dropWhile isPyWS).reverse c h

/-- The assembled cleanup pipeline: its output has no three consecutive
newlines, no two consecutive spaces, and no whitespace at either end. -/
theorem cleanupChars_props (l : List Char) :
    ¬ ContainsSeg ['\n', '\n', '\n'] (cleanupChars l) ∧
    ¬ ContainsSeg [' ', ' '] (cleanupChars l) ∧
    (∀ c, (cleanupChars l).head? = some c → isPyWS c = false) ∧
    (∀ c, (cleanupChars l).getLast? = some c → isPyWS c = false) := by
  refine ⟨?_, ?_, ?_, ?_⟩
  · exact stripEnds_noSeg
      (capSP_noTriple_preserved (capNL 0 l) false (capNL_noTriple l 0))
  · exact stripEnds_noSeg (capSP_noDouble (capNL 0 l) false)
  · exact fun c h => stripEnds_head _ c h
  · exact fun c h => stripEnds_last _ c h

/-- C6.  For every parsed input and every unwanted-node configuration, the
normalizer's output contains no run of three or more newline characters, no
run of two or more spaces, and no leading or trailing whitespace. -/
theorem normalizer_whitespace_law (cfg : UnwantedCfg) (ns : List Html) :
    ¬ ContainsSeg ['\n', '\n', '\n'] (html_to_markdown cfg ns).data ∧
    ¬ ContainsSeg [' ', ' '] (html_to_markdown cfg ns).data ∧
    (∀ c, (html_to_markdown cfg ns).data.head? = some c → isPyWS c = false) ∧
    (∀ c, (html_to_markdown cfg ns).data.getLast? = some c → isPyWS c = false) := by
  have h := cleanupChars_props (h2tHandle (decomposeAll cfg ns)).data
  simpa [html_to_markdown, cleanup] using h

/-- Witness for C6 at a concrete document with unwanted nodes, surplus
whitespace and surrounding blank lines: the inner hypotheses of the law are
discharged on the computed output. -/
theorem normalizer_whitespace_law_witness :
    isPyWS 'a' = false ∧
    ¬ ContainsSeg [' ', ' ']
      (html_to_markdown ⟨[], [], []⟩ [.text "a  b"]).data :=
  ⟨(normalizer_whitespace_law ⟨[], [], []⟩ [.text "a  b"]).2.2.1 'a'
      (by simp only [html_to_markdown, decomposeAll, pruneIds, pruneClasses,
        pruneTags, List.foldl_nil, h2tHandle, renderList]; decide),
    (normalizer_whitespace_law ⟨[], [], []⟩ [.text "a  b"]).2.1⟩

/-! ## C7: subtree-wide removal completeness -/

/-- Pruning with an always-false predicate removes nothing. -/
theorem pruneL_false : ∀ ns : List Html, pruneL (fun _ => false) ns = ns
  | [] => by simp [pruneL]
  | .text s :: rest => by
    simp only [pruneL]
    rw [pruneL_false rest]
  | .elem t i c ch :: rest => by
    simp only [pruneL, Bool.false_eq_true, if_false]
    rw [pruneL_false ch, pruneL_false rest]

/-- Pruning respects pointwise-equal predicates. -/
theorem pruneL_congr (p q : Html → Bool) (hpq : ∀ h, p h = q h) :
    ∀ ns : List Html, pruneL p ns = pruneL q ns
  | [] => by simp [pruneL]
  | .text s :: rest => by
    simp only [pruneL]
    rw [pruneL_congr p q hpq rest]
  | .elem t i c ch :: rest => by
    simp only [pruneL, hpq (.elem t i c ch)]
    by_cases hq : q (.elem t i c ch)
    · rw [if_pos hq, if_pos hq, pruneL_congr p q hpq rest]
    · rw [if_neg hq, if_neg hq, pruneL_congr p q hpq ch,
        pruneL_congr p q hpq rest]

/-- The text remaining after one decompose pass is exactly the text
collected by skipping matched subtrees wholesale: nothing from inside a
removed node survives. -/
theorem texts_pruneL (p : Html → Bool) :
    ∀ ns : List Html, texts (pruneL p ns) = specCollect p ns
  | [] => by simp [pruneL, texts, specCollect]
  | .text s :: rest => by
    simp only [pruneL, texts, specCollect]
    rw [texts_pruneL p rest]
  | .elem t i c ch :: rest => by
    by_cases hp : p (.elem t i c ch)
    · simp only [pruneL, specCollect, if_pos hp]
      exact texts_pruneL p rest
    · simp only [pruneL, specCollect, if_neg hp, texts]
      rw [texts_pruneL p ch, texts_pruneL p rest]

/-- Two successive decompose passes are one pass with the disjunction of
the predicates, provided the second predicate ignores children (true of
every selector in the source: they only read tag, id and class). -/
theorem pruneL_pruneL (p q : Html → Bool) (hq : ChildBlind q) :
    ∀ ns : List Html,
      pruneL q (pruneL p ns) = pruneL (fun h => p h || q h) ns
  | [] => by simp [pruneL]
  | .text s :: rest => by
    simp only [pruneL]
    rw [pruneL_pruneL p q hq rest]
  | .elem t i c ch :: rest => by
    by_cases hp : p (.elem t i c ch)
    · have hcond : (p (.elem t i c ch) || q (.elem t i c ch)) = true := by
        rw [hp]; simp
      simp only [pruneL, if_pos hp, hcond, if_true]
      exact pruneL_pruneL p q hq rest
    · have hqc : q (.elem t i c (pruneL p ch)) = q (.elem t i c ch) :=
        hq t i c _ ch
      by_cases hq2 : q (.elem t i c ch)
      · have hcond : (p (.elem t i c ch) || q (.elem t i c ch)) = true := by
          rw [hq2]; simp
        simp only [pruneL, if_neg hp, hcond, if_true, hqc, if_pos hq2]
        exact pruneL_pruneL p q hq rest
      · have hcond : ¬ ((p (.elem t i c ch) || q (.elem t i c ch)) = true) := by
          simp [hp, hq2]
        simp only [pruneL, if_neg hp, if_neg hcond, hqc, if_neg hq2]
        rw [pruneL_pruneL p q hq ch, pruneL_pruneL p q hq rest]

/-- The id selectors ignore children. -/
theorem childBlind_idAny (ids : List String) :
    ChildBlind (fun h => ids.any fun i => idMatches i h) := by
  intro t i c ch ch'
  simp [idMatches]

/-- The class selectors ignore children. -/
theorem childBlind_classAny (classes : List String) :
    ChildBlind (fun h => classes.any fun cl => classMatches cl h) := by
  intro t i c ch ch'
  simp [classMatches]

/-- The tag selectors ignore children. -/
theorem childBlind_tagAny (tags : List String) :
    ChildBlind (fun h => tags.any fun tg => tagMatches tg h) := by
  intro t i c ch ch'
  simp [tagMatches]

/-- The sequential per-id decompose loop equals one pass with membership in
the id list. -/
theorem pruneIds_eq (ids : List String) :
    ∀ ns, pruneIds ids ns = pruneL (fun h => ids.any fun i => idMatches i h) ns := by
  induction ids with
  | nil =>
    intro ns
    simp only [pruneIds, List.foldl_nil]
    calc ns = pruneL (fun _ => false) ns := (pruneL_false ns).symm
      _ = _ := pruneL_congr _ _ (fun h => by simp) ns
  | cons i0 is ih =>
    intro ns
    have h1 : pruneIds (i0 :: is) ns = pruneIds is (pruneL (idMatches i0) ns) := by
      simp [pruneIds, List.foldl_cons]
    rw [h1, ih, pruneL_pruneL (idMatches i0) _ (childBlind_idAny is)]
    exact pruneL_congr _ _ (fun h => by simp [List.any_cons]) ns

/-- The sequential per-class decompose loop equals one pass with membership
in the class list. -/
theorem pruneClasses_eq (classes : List String) :
    ∀ ns, pruneClasses classes ns
      = pruneL (fun h => classes.any fun cl => classMatches cl h) ns := by
  induction classes with
  | nil =>
    intro ns
    simp only [pruneClasses, List.foldl_nil]
    calc ns = pruneL (fun _ => false) ns := (pruneL_false ns).symm
      _ = _ := pruneL_congr _ _ (fun h => by simp) ns
  | cons c0 cs ih =>
    intro ns
    have h1 : pruneClasses (c0 :: cs) ns
        = pruneClasses cs (pruneL (classMatches c0) ns) := by
      simp [pruneClasses, List.foldl_cons]
    rw [h1, ih, pruneL_pruneL (classMatches c0) _ (childBlind_classAny cs)]
    exact pruneL_congr _ _ (fun h => by simp [List.any_cons]) ns

/-- The sequential per-tag decompose loop equals one pass with membership in
the tag list. -/
theorem pruneTags_eq (tags : List String) :
    ∀ ns, pruneTags tags ns
      = pruneL (fun h => tags.any fun tg => tagMatches tg h) ns := by
  induction tags with
  | nil =>
    intro ns
    simp only [pruneTags, List.foldl_nil]
    calc ns = pruneL (fun _ => false) ns := (pruneL_false ns).symm
      _ = _ := pruneL_congr _ _ (fun h => by simp) ns
  | cons t0 ts ih =>
    intro ns
    have h1 : pruneTags (t0 :: ts) ns
        = pruneTags ts (pruneL (tagMatches t0) ns) := by
      simp [pruneTags, List.foldl_cons]
    rw [h1, ih, pruneL_pruneL (tagMatches t0) _ (childBlind_tagAny ts)]
    exact pruneL_congr _ _ (fun h => by simp [List.any_cons]) ns

/-- The three removal loops of `html_to_markdown` amount to a single
decompose pass with the combined selector. -/
theorem decomposeAll_eq (cfg : UnwantedCfg) (ns : List Html) :
    decomposeAll cfg ns = pruneL (matchesAny cfg) ns := by
  unfold decomposeAll
  rw [pruneIds_eq, pruneClasses_eq, pruneTags_eq,
    pruneL_pruneL _ _ (childBlind_classAny cfg.classes),
    pruneL_pruneL _ _ (childBlind_tagAny cfg.tags)]
  exact pruneL_congr _ _ (fun h => by simp [matchesAny, Bool.or_assoc]) ns

/-- C7.  The text surviving the three removal loops is exactly the text
collected by skipping, subtree-wide, every node whose id, class or tag is
unwanted (`specCollect` is the spec-worded collector): no text of a matched
element or of any of its descendants appears among the normalizer's emitted
text pieces. -/
theorem normalizer_removal_completeness (cfg : UnwantedCfg) (ns : List Html) :
    texts (decomposeAll cfg ns) = specCollect (matchesAny cfg) ns := by
  rw [decomposeAll_eq]
  exact texts_pruneL (matchesAny cfg) ns

/-! ## C5: sentinel inputs of the normalizer -/

/-- C5, counterexample.  The claim says a `None` html input is returned
unchanged without raising.  The source has no sentinel check at all: the
first statement, `html.unescape(html_content)`, runs a membership test on
its argument and raises `TypeError` when the argument is `None`, so the
call errors instead of returning the input. -/
theorem normalizer_none_raises_cex :
    html_to_markdown_call none ⟨[], [], []⟩ = .error PyErr.typeError := rfl

/-- C5, amended.  The empty string and the placeholder string
"No content found" are returned unchanged — not via a sentinel check but
because they survive the parse/convert/cleanup round-trip — while a `None`
input raises `TypeError` inside `html.unescape`, for every unwanted-node
configuration. -/
theorem normalizer_sentinel_amended (cfg : UnwantedCfg) :
    html_to_markdown_call (some "") cfg = .ok "" ∧
    html_to_markdown_call (some "No content found") cfg
      = .ok "No content found" ∧
    html_to_markdown_call none cfg = .error .typeError := by
  refine ⟨?_, ?_, rfl⟩
  · show Except.ok (html_to_markdown cfg (parsePlainText "")) = .ok ""
    rw [show parsePlainText "" = [] from rfl, html_to_markdown,
      decomposeAll_eq, show pruneL (matchesAny cfg) [] = [] from by simp [pruneL],
      h2tHandle, show renderList [] = "" from by simp [renderList]]
    exact congrArg Except.ok (by decide)
  · show Except.ok (html_to_markdown cfg (parsePlainText "No content found"))
      = .ok "No content found"
    rw [show parsePlainText "No content found" = [.text "No content found"] from rfl,
      html_to_markdown, decomposeAll_eq,
      show pruneL (matchesAny cfg) [.text "No content found"]
        = [.text "No content found"] from by simp [pruneL],
      h2tHandle,
      show renderList [.text "No content found"] = "No content found" ++ "" from by
        simp [renderList]]
    exact congrArg Except.ok (by decide)

end PhNews
